import Mathlib

/-!
Verification of the Modbus ASCII transport and LRC checksum of this
repository, as a shallow embedding in Lean 4.

Bytes are modelled as `Nat` values below 256; byte-wrapping arithmetic is
made explicit with `% 256`.  Byte streams read from the serial link are
finite lists of bytes; exhaustion of the list models the read deadline
expiring (the Go code maps an OS timeout to `ErrRequestTimedOut`).
Durations and instants are `Nat` nanoseconds.
-/

deriving instance DecidableEq for Except

/-- Error vocabulary of the transport layer (from the repository's error
values `ErrRequestTimedOut`, `ErrProtocolError`, `ErrShortFrame`,
`ErrBadLRC`; `linkError` stands for any error surfaced verbatim from the
underlying link, e.g. a failed `SetDeadline` or `Write`). -/
inductive mbErr where
  | requestTimedOut
  | protocolError
  | shortFrame
  | badLRC
  | linkError
deriving DecidableEq, Repr

/-- The protocol data unit (Go struct `pdu`): unit id, function code and
payload, all byte-valued. -/
structure pdu where
  unitId : Nat
  functionCode : Nat
  payload : List Nat
deriving DecidableEq, Repr

/-- A PDU is byte-valued: every field fits in one byte. -/
def pduWF (p : pdu) : Prop :=
  p.unitId < 256 ∧ p.functionCode < 256 ∧ ∀ b ∈ p.payload, b < 256

instance (p : pdu) : Decidable (pduWF p) := by
  unfold pduWF; infer_instance

/-- `computeLRC` from `lrc.go`: sum all bytes with byte wrap-around, then
take the two's complement (`^sum + 1` on a Go `byte`). -/
def computeLRC (buf : List Nat) : Nat :=
  let sum := buf.foldl (fun s b => (s + b) % 256) 0
  (255 - sum + 1) % 256

/-- `verifyLRC` from `lrc.go`: recompute and compare. -/
def verifyLRC (buf : List Nat) (lrc : Nat) : Bool :=
  computeLRC buf == lrc

/-- `maxASCIIFrameLength` from the ASCII transport source. -/
def maxASCIIFrameLength : Nat := 513

/-- Hex digit table of `toHexUpper` (the Go string "0123456789ABCDEF" as
ASCII codes). -/
def hexTable : List Nat := [48, 49, 50, 51, 52, 53, 54, 55, 56, 57, 65, 66, 67, 68, 69, 70]

/-- `toHexUpper` from the ASCII transport source: the two upper-case hex
digit characters of a byte (`table[b>>4]`, `table[b&0x0f]`). -/
def toHexUpper (b : Nat) : List Nat :=
  [hexTable.getD (b / 16) 0, hexTable.getD (b % 16) 0]

/-- The hex-encoding loop of `assembleASCIIFrame`: each byte of `buf`
appended as its two upper-case hex digits. -/
def hexEncode (buf : List Nat) : List Nat :=
  (buf.map toHexUpper).flatten

/-- `assembleASCIIFrame` from the ASCII transport source: frame =
`':'` then the hex encoding of unitId, functionCode, payload and LRC,
then CR LF (byte codes 58, …, 13, 10). -/
def assembleASCIIFrame (p : pdu) : List Nat :=
  let buf := p.unitId :: p.functionCode :: p.payload
  let buf := buf ++ [computeLRC buf]
  58 :: hexEncode buf ++ [13, 10]

/-- Value of one hex digit character, as accepted by Go's
`encoding/hex.Decode` (digits, lower-case and upper-case letters). -/
def hexDigitVal (c : Nat) : Option Nat :=
  if 48 ≤ c ∧ c ≤ 57 then some (c - 48)
  else if 97 ≤ c ∧ c ≤ 102 then some (c - 87)
  else if 65 ≤ c ∧ c ≤ 70 then some (c - 55)
  else none

/-- Go's `encoding/hex.Decode`: consecutive pairs of hex digit characters
to bytes; any non-hex character (or odd length) is a decode error. -/
def hexDecode : List Nat → Option (List Nat)
  | [] => some []
  | [_] => none
  | c1 :: c2 :: rest =>
    match hexDigitVal c1, hexDigitVal c2, hexDecode rest with
    | some h, some l, some bs => some ((h * 16 + l) :: bs)
    | _, _, _ => none

/-- The byte-oriented scanner loop of `readASCIIFrame`: discard bytes
until `':'` (58) is seen, then accumulate bytes into `rxbuf`, failing
with a protocol error as soon as the accumulated frame exceeds
`maxASCIIFrameLength`, and stopping at the first `'\n'` (10).  Stream
exhaustion models the read deadline expiring. -/
def asciiScanLoop : List Nat → Bool → List Nat → Except mbErr (List Nat)
  | [], _, _ => .error .requestTimedOut
  | b :: rest, colon, rxbuf =>
    if colon = false ∧ b ≠ 58 then
      asciiScanLoop rest colon rxbuf
    else
      let rxbuf := rxbuf ++ [b]
      if maxASCIIFrameLength < rxbuf.length then .error .protocolError
      else if b = 10 then .ok rxbuf
      else asciiScanLoop rest true rxbuf

/-- The validation and decoding part of `readASCIIFrame`, applied to the
accumulated `rxbuf`: check the CR before the terminator, strip `':'` and
CR LF, require at least 6 hex characters, even length, clean hex decode,
at least 3 decoded bytes, and a matching LRC; on success build the PDU
from the decoded bytes. -/
def parseASCIIBuf (rxbuf : List Nat) : Except mbErr pdu :=
  if rxbuf.length < 3 ∨ rxbuf.getD (rxbuf.length - 2) 0 ≠ 13 then
    .error .protocolError
  else
    let hexPayload := (rxbuf.drop 1).take (rxbuf.length - 3)
    if hexPayload.length < 6 then .error .shortFrame
    else if hexPayload.length % 2 ≠ 0 then .error .protocolError
    else
      match hexDecode hexPayload with
      | none => .error .protocolError
      | some raw =>
        if raw.length < 3 then .error .shortFrame
        else
          let data := raw.take (raw.length - 1)
          let lrc := raw.getD (raw.length - 1) 0
          if ¬ verifyLRC data lrc then .error .badLRC
          else .ok ⟨data.getD 0 0, data.getD 1 0, data.drop 2⟩

/-- The tail of `parseASCIIBuf` after a successful hex decode, as a named
function of the decoded bytes (definitionally equal to the corresponding
branch of `parseASCIIBuf`). -/
def parseRaw (raw : List Nat) : Except mbErr pdu :=
  if raw.length < 3 then .error .shortFrame
  else
    let data := raw.take (raw.length - 1)
    let lrc := raw.getD (raw.length - 1) 0
    if ¬ verifyLRC data lrc then .error .badLRC
    else .ok ⟨data.getD 0 0, data.getD 1 0, data.drop 2⟩

/-- Upper-case hexadecimal digit characters: `'0'`–`'9'` and `'A'`–`'F'`. -/
def isUpperHexDigit (c : Nat) : Bool :=
  (48 ≤ c && c ≤ 57) || (65 ≤ c && c ≤ 70)

/-- `readASCIIFrame` from the ASCII transport source, over a finite byte
stream: scan for one frame, then validate and decode it. -/
def readASCIIFrame (stream : List Nat) : Except mbErr pdu :=
  match asciiScanLoop stream false [] with
  | .error e => .error e
  | .ok rxbuf => parseASCIIBuf rxbuf

/-- State of the ASCII transport (Go struct `asciiTransport`), restricted
to the fields the claims are about: per-operation timeout, last-activity
instant and the two derived timing constants, all in nanoseconds. -/
structure asciiTransport where
  timeout : Nat
  lastActivity : Nat
  t35 : Nat
  t1 : Nat
deriving DecidableEq, Repr

/-- `newASCIITransport` from the ASCII transport source.  The repository's
`serialCharTime` lives in the RTU transport sources, which are not among
the provided files; per the spec it returns the one-character transmission
time at the given baud, so it is threaded here as the parameter `sct`.
The Go zero value of `lastActivity` is instant 0, and 1750 microseconds
is 1750000 nanoseconds. -/
def newASCIITransport (sct : Nat → Nat) (speed : Nat) (timeout : Nat) : asciiTransport :=
  let speed := if speed = 0 then 19200 else speed
  { timeout := timeout
    lastActivity := 0
    t1 := sct speed
    t35 := if 19200 ≤ speed then 1750000 else sct speed * 35 / 10 }

/-- Oracle describing the environment of one `ExecuteRequest` call:
whether arming the deadline succeeds, the outcome of writing the frame
(`some n` = `n` bytes written, `none` = link write error), the outcome of
`readASCIIFrame` on the link, and the instants the system clock shows at
the start of the call, right after the write returns, and at the final
last-activity update. -/
structure execOracle where
  deadlineOk : Bool
  writeRes : Option Nat
  readRes : Except mbErr pdu
  startNow : Nat
  afterWriteNow : Nat
  endNow : Nat
deriving DecidableEq, Repr

/-- Result of one modelled `ExecuteRequest` call: the returned value, the
final `lastActivity`, and the instants at which the frame write and the
response read begin (`none` when that point is never reached). -/
structure execResult where
  res : Except mbErr pdu
  lastActivity : Nat
  writeTime : Option Nat
  readTime : Option Nat
deriving DecidableEq, Repr

/-- `ExecuteRequest` of the ASCII transport over an idealised clock:
sleeping for the remainder of an interval moves the clock exactly to the
interval's end, so the write begins at `max startNow (lastActivity +
t35)` and the read at `max afterWriteNow (la + t35)`, where `la =
writeTime + n * t1` is the post-write activity estimate stored into
`lastActivity`.  A bad-LRC, protocol or short-frame read outcome
triggers the discard window (time only, no state effect); then every
outcome except a timed-out read sets `lastActivity` to the current time
`endNow`, while a timed-out read leaves the post-write estimate in
place.  A failed deadline arming or link write returns early with
`lastActivity` untouched. -/
def executeRequestModel (st : asciiTransport) (o : execOracle) : execResult :=
  if o.deadlineOk = false then
    ⟨.error .linkError, st.lastActivity, none, none⟩
  else
    let ts := max o.startNow (st.lastActivity + st.t35)
    match o.writeRes with
    | none => ⟨.error .linkError, st.lastActivity, some ts, none⟩
    | some n =>
      let la := ts + n * st.t1
      let rt := max o.afterWriteNow (la + st.t35)
      match o.readRes with
      | .ok p => ⟨.ok p, o.endNow, some ts, some rt⟩
      | .error e =>
        if e = .requestTimedOut then ⟨.error e, la, some ts, some rt⟩
        else ⟨.error e, o.endNow, some ts, some rt⟩

/-- Folding byte-wrapping addition computes the sum mod 256. -/
theorem lrc_foldl_sum (buf : List Nat) :
    ∀ s, s < 256 → buf.foldl (fun a b => (a + b) % 256) s = (s + buf.sum) % 256 := by
  induction buf with
  | nil =>
    intro s hs
    simp [Nat.mod_eq_of_lt hs]
  | cons b rest ih =>
    intro s hs
    simp only [List.foldl_cons, List.sum_cons]
    rw [ih _ (Nat.mod_lt _ (by norm_num))]
    omega

/-- `computeLRC` is the two's complement of the mod-256 sum. -/
theorem computeLRC_eq (buf : List Nat) :
    computeLRC buf = (256 - buf.sum % 256) % 256 := by
  show (255 - buf.foldl (fun a b => (a + b) % 256) 0 + 1) % 256 = _
  rw [lrc_foldl_sum buf 0 (by norm_num)]
  omega

/-- `computeLRC` always returns a byte. -/
theorem computeLRC_lt (buf : List Nat) : computeLRC buf < 256 := by
  show (255 - buf.foldl (fun a b => (a + b) % 256) 0 + 1) % 256 < 256
  exact Nat.mod_lt _ (by norm_num)

/-- Bytes before the first `':'` are skipped by the scanner. -/
theorem scanLoop_noise (ns : List Nat) :
    ∀ stream, (∀ b ∈ ns, b ≠ 58) →
      asciiScanLoop (ns ++ stream) false [] = asciiScanLoop stream false [] := by
  induction ns with
  | nil => intro stream _; rfl
  | cons n ns' ih =>
    intro stream h
    have hn : n ≠ 58 := h n (List.mem_cons_self n ns')
    show asciiScanLoop (n :: (ns' ++ stream)) false [] = _
    rw [asciiScanLoop]
    rw [if_pos ⟨rfl, hn⟩]
    exact ih stream (fun b hb => h b (List.mem_cons_of_mem n hb))

/-- After frame start, a newline-free body followed by `'\n'` is fully
accumulated when the total stays within the maximum frame length. -/
theorem scanLoop_ok (bs : List Nat) :
    ∀ acc, 10 ∉ bs → acc.length + bs.length + 1 ≤ 513 →
      asciiScanLoop (bs ++ [10]) true acc = .ok (acc ++ bs ++ [10]) := by
  induction bs with
  | nil =>
    intro acc _ hlen
    show asciiScanLoop [10] true acc = _
    rw [asciiScanLoop]
    rw [if_neg (by simp)]
    simp only [maxASCIIFrameLength, List.length_append, List.length_cons, List.length_nil]
    rw [if_neg (by omega)]
    simp
  | cons b bs' ih =>
    intro acc hmem hlen
    have hb : b ≠ 10 := fun hc => hmem (hc ▸ List.mem_cons_self b bs')
    show asciiScanLoop (b :: (bs' ++ [10])) true acc = _
    rw [asciiScanLoop]
    rw [if_neg (by simp)]
    simp only [maxASCIIFrameLength, List.length_append, List.length_cons, List.length_nil]
    rw [if_neg (by simp only [List.length_cons] at hlen; omega)]
    rw [if_neg hb]
    rw [ih (acc ++ [b]) (fun hc => hmem (List.mem_cons_of_mem b hc))
      (by simp only [List.length_append, List.length_cons, List.length_nil] at hlen ⊢; omega)]
    simp

/-- After frame start, a run of 514 or more accumulated bytes without a
newline trips the maximum-frame-length check. -/
theorem scanLoop_overflow (bs : List Nat) :
    ∀ acc rest, 10 ∉ bs → acc.length ≤ 513 → 514 ≤ acc.length + bs.length →
      asciiScanLoop (bs ++ rest) true acc = .error .protocolError := by
  induction bs with
  | nil =>
    intro acc rest _ h1 h2
    simp only [List.length_nil] at h2
    omega
  | cons b bs' ih =>
    intro acc rest hmem h1 h2
    have hb : b ≠ 10 := fun hc => hmem (hc ▸ List.mem_cons_self b bs')
    show asciiScanLoop (b :: (bs' ++ rest)) true acc = _
    rw [asciiScanLoop]
    rw [if_neg (by simp)]
    simp only [maxASCIIFrameLength, List.length_append, List.length_cons, List.length_nil]
    by_cases hof : 513 < acc.length + 1
    · rw [if_pos hof]
    · rw [if_neg hof]
      rw [if_neg hb]
      exact ih (acc ++ [b]) rest (fun hc => hmem (List.mem_cons_of_mem b hc))
        (by simp only [List.length_append, List.length_cons, List.length_nil]; omega)
        (by simp only [List.length_append, List.length_cons, List.length_nil] at h2 ⊢; omega)

/-- A full frame `':' mid CR LF` whose interior has no newline and which
fits in the maximum frame length is accumulated whole by the scanner. -/
theorem scan_frame (mid : List Nat) (h10 : 10 ∉ mid) (hlen : mid.length + 3 ≤ 513) :
    asciiScanLoop (58 :: mid ++ [13, 10]) false [] = .ok (58 :: mid ++ [13, 10]) := by
  show asciiScanLoop (58 :: (mid ++ [13, 10])) false [] = _
  rw [asciiScanLoop]
  rw [if_neg (by simp)]
  simp only [maxASCIIFrameLength, List.nil_append, List.length_cons, List.length_nil]
  rw [if_neg (by omega), if_neg (by norm_num)]
  have hsplit : mid ++ [13, 10] = (mid ++ [13]) ++ [10] := by simp
  rw [hsplit]
  rw [scanLoop_ok (mid ++ [13]) [58] (by simp [h10])
    (by simp only [List.length_append, List.length_cons, List.length_nil]; omega)]
  simp

/-- Shape of `parseASCIIBuf` on a buffer of the form `':' mid CR LF`:
the prefix and terminator checks pass and the interior `mid` becomes the
hex payload. -/
theorem parse_frame (mid : List Nat) :
    parseASCIIBuf (58 :: mid ++ [13, 10]) =
      (if mid.length < 6 then .error .shortFrame
       else if mid.length % 2 ≠ 0 then .error .protocolError
       else
         match hexDecode mid with
         | none => .error .protocolError
         | some raw => parseRaw raw) := by
  have hlen : (58 :: mid ++ [13, 10]).length = mid.length + 3 := by simp
  have hcr : (58 :: mid ++ [13, 10]).getD ((58 :: mid ++ [13, 10]).length - 2) 0 = 13 := by
    rw [hlen]
    have h2 : mid.length + 3 - 2 = mid.length + 1 := by omega
    rw [h2]
    show (58 :: (mid ++ [13, 10])).getD (mid.length + 1) 0 = 13
    rw [List.getD_cons_succ]
    rw [List.getD_append_right mid [13, 10] 0 mid.length (Nat.le_refl _)]
    simp
  have hpay : ((58 :: mid ++ [13, 10]).drop 1).take ((58 :: mid ++ [13, 10]).length - 3) = mid := by
    rw [hlen]
    show (mid ++ [13, 10]).take (mid.length + 3 - 3) = mid
    have h3 : mid.length + 3 - 3 = mid.length := by omega
    rw [h3, List.take_left]
  have hguard : ¬((58 :: mid ++ [13, 10]).length < 3 ∨
      (58 :: mid ++ [13, 10]).getD ((58 :: mid ++ [13, 10]).length - 2) 0 ≠ 13) := by
    rintro (h | h)
    · rw [hlen] at h; omega
    · exact h hcr
  unfold parseASCIIBuf
  rw [if_neg hguard]
  simp only [hpay]
  rfl

/-- `readASCIIFrame` on a full frame `':' mid CR LF` reduces to parsing
that frame buffer. -/
theorem readFrame_frame (mid : List Nat) (h10 : 10 ∉ mid) (hlen : mid.length + 3 ≤ 513) :
    readASCIIFrame (58 :: mid ++ [13, 10]) = parseASCIIBuf (58 :: mid ++ [13, 10]) := by
  unfold readASCIIFrame
  rw [scan_frame mid h10 hlen]

/-- Every entry of the hex digit table is an upper-case hex digit. -/
theorem hexTable_isUpperHexDigit : ∀ d < 16, isUpperHexDigit (hexTable.getD d 0) = true := by
  decide

/-- `hexDigitVal` inverts the hex digit table. -/
theorem hexDigitVal_table : ∀ d < 16, hexDigitVal (hexTable.getD d 0) = some d := by
  decide

/-- Decoding one encoded byte at the head of a hex string. -/
theorem hexDecode_cons_encoded (b : Nat) (hb : b < 256) (rest : List Nat) (bs : List Nat)
    (h : hexDecode rest = some bs) :
    hexDecode (toHexUpper b ++ rest) = some (b :: bs) := by
  show hexDecode (hexTable.getD (b / 16) 0 :: hexTable.getD (b % 16) 0 :: rest) = _
  rw [hexDecode]
  rw [hexDigitVal_table (b / 16) (by omega), hexDigitVal_table (b % 16) (by omega), h]
  have hbeq : b / 16 * 16 + b % 16 = b := by omega
  show some ((b / 16 * 16 + b % 16) :: bs) = some (b :: bs)
  rw [hbeq]

/-- `hexEncode` on a cons. -/
theorem hexEncode_cons (b : Nat) (rest : List Nat) :
    hexEncode (b :: rest) = toHexUpper b ++ hexEncode rest := by
  simp [hexEncode]

/-- Hex decoding inverts hex encoding on byte-valued lists. -/
theorem hexDecode_hexEncode (buf : List Nat) (h : ∀ b ∈ buf, b < 256) :
    hexDecode (hexEncode buf) = some buf := by
  induction buf with
  | nil => rfl
  | cons b rest ih =>
    rw [hexEncode_cons]
    exact hexDecode_cons_encoded b (h b (List.mem_cons_self b rest)) _ _
      (ih fun x hx => h x (List.mem_cons_of_mem b hx))

/-- Every character of a hex encoding of bytes is an upper-case hex
digit. -/
theorem hexEncode_chars (buf : List Nat) (h : ∀ b ∈ buf, b < 256) :
    ∀ c ∈ hexEncode buf, isUpperHexDigit c = true := by
  induction buf with
  | nil =>
    intro c hc
    simp only [hexEncode, List.map_nil, List.flatten_nil] at hc
    exact absurd hc (List.not_mem_nil c)
  | cons b rest ih =>
    intro c hc
    rw [hexEncode_cons] at hc
    rcases List.mem_append.mp hc with hc | hc
    · have hb : b < 256 := h b (List.mem_cons_self b rest)
      rcases hc with _ | ⟨_, hc⟩
      · exact hexTable_isUpperHexDigit (b / 16) (by omega)
      · rcases hc with _ | ⟨_, hc⟩
        · exact hexTable_isUpperHexDigit (b % 16) (by omega)
        · exact absurd hc (List.not_mem_nil c)
    · exact ih (fun x hx => h x (List.mem_cons_of_mem b hx)) c hc

/-- A hex encoding of bytes never contains the newline character. -/
theorem hexEncode_no_newline (buf : List Nat) (h : ∀ b ∈ buf, b < 256) :
    10 ∉ hexEncode buf := by
  intro hc
  have := hexEncode_chars buf h 10 hc
  simp [isUpperHexDigit] at this

/-- Length of a hex encoding: two characters per byte. -/
theorem hexEncode_length (buf : List Nat) : (hexEncode buf).length = 2 * buf.length := by
  induction buf with
  | nil => rfl
  | cons b rest ih =>
    rw [hexEncode_cons]
    simp only [List.length_append, List.length_cons, ih]
    show 2 + 2 * rest.length = 2 * (rest.length + 1)
    omega

/-- C2: for every byte sequence B, `verifyLRC B (computeLRC B)` is true,
and for every X different from `computeLRC B`, `verifyLRC B X` is
false. -/
theorem C2_verifyLRC_correct (buf : List Nat) (x : Nat) :
    verifyLRC buf (computeLRC buf) = true ∧
      (x ≠ computeLRC buf → verifyLRC buf x = false) := by
  constructor
  · simp [verifyLRC]
  · intro hx
    simp only [verifyLRC, beq_eq_false_iff_ne]
    exact fun hc => hx hc.symm

/-- Witness for C2 at a concrete byte sequence and a concrete wrong LRC. -/
theorem C2_verifyLRC_correct_witness :
    verifyLRC [1, 3, 0, 19, 0, 10] (computeLRC [1, 3, 0, 19, 0, 10]) = true ∧
      verifyLRC [1, 3, 0, 19, 0, 10] 0 = false :=
  ⟨(C2_verifyLRC_correct [1, 3, 0, 19, 0, 10] 0).1,
   (C2_verifyLRC_correct [1, 3, 0, 19, 0, 10] 0).2 (by decide)⟩

/-- C3: `computeLRC` is total over arbitrary byte sequences (it is a total
function on lists, including the empty list) and returns the two's
complement of the mod-256 sum of its input; in particular
`computeLRC [0x01,0x03,0x00,0x13,0x00,0x0a] = 0xDF` and
`computeLRC [0x10,0x11,0x12] = 0xCD`. -/
theorem C3_computeLRC_twos_complement (buf : List Nat) :
    computeLRC buf = (256 - buf.sum % 256) % 256 ∧
      computeLRC [1, 3, 0, 19, 0, 10] = 223 ∧
      computeLRC [16, 17, 18] = 205 :=
  ⟨computeLRC_eq buf, by decide, by decide⟩

/-- C4: the frame ":31030411223362\r\n" decodes to unitId 0x31, function
code 0x03, payload [0x04,0x11,0x22,0x33]; the same frame with the LRC hex
digits replaced by "00" gives a bad-LRC error; the truncated frame
":33\r\n" gives a short-frame error (frames given as ASCII byte codes). -/
theorem C4_readASCIIFrame_examples :
    readASCIIFrame [58, 51, 49, 48, 51, 48, 52, 49, 49, 50, 50, 51, 51, 54, 50, 13, 10] =
        .ok ⟨49, 3, [4, 17, 34, 51]⟩ ∧
      readASCIIFrame [58, 51, 49, 48, 51, 48, 52, 49, 49, 50, 50, 51, 51, 48, 48, 13, 10] =
        .error .badLRC ∧
      readASCIIFrame [58, 51, 51, 13, 10] = .error .shortFrame :=
  ⟨by decide, by decide, by decide⟩

/-- C5 counterexample: the frame ":333\r\n" has an odd-length region (3
hex characters) between `':'` and the CR LF, yet `readASCIIFrame`
returns a short-frame error, not a protocol error: the length-below-6
check runs before the parity check. -/
theorem C5_counterexample_odd_short :
    readASCIIFrame [58, 51, 51, 51, 13, 10] = .error .shortFrame ∧
      mbErr.shortFrame ≠ mbErr.protocolError :=
  ⟨by decide, by decide⟩

/-- C5 (amended): a received frame whose region between `':'` and the
trailing CR LF has odd length of at least 6 hex characters (hence at
least 7) yields a protocol error; odd regions shorter than 6 yield a
short-frame error instead. -/
theorem C5_odd_region_protocol_error (mid : List Nat) (h10 : 10 ∉ mid)
    (hodd : mid.length % 2 = 1) (h6 : 6 ≤ mid.length) (hmax : mid.length + 3 ≤ 513) :
    readASCIIFrame (58 :: mid ++ [13, 10]) = .error .protocolError := by
  rw [readFrame_frame mid h10 hmax, parse_frame]
  rw [if_neg (by omega)]
  rw [if_pos (by omega)]

/-- Witness for C5 (amended) at the concrete 7-character region
"3103041". -/
theorem C5_odd_region_witness :
    readASCIIFrame (58 :: [51, 49, 48, 51, 48, 52, 49] ++ [13, 10]) = .error .protocolError :=
  C5_odd_region_protocol_error [51, 49, 48, 51, 48, 52, 49]
    (by decide) (by decide) (by decide) (by decide)

/-- `parseRaw` on decoded bytes of the form `data ++ [computeLRC data]`
passes the length and LRC checks and rebuilds the PDU fields from
`data`. -/
theorem parseRaw_append (data : List Nat) (h2 : 2 ≤ data.length) :
    parseRaw (data ++ [computeLRC data]) =
      .ok ⟨data.getD 0 0, data.getD 1 0, data.drop 2⟩ := by
  have hrawlen : (data ++ [computeLRC data]).length = data.length + 1 := by simp
  have hsub : (data ++ [computeLRC data]).length - 1 = data.length := by omega
  have htake : (data ++ [computeLRC data]).take ((data ++ [computeLRC data]).length - 1) =
      data := by
    rw [hsub, List.take_left]
  have hgetD : (data ++ [computeLRC data]).getD ((data ++ [computeLRC data]).length - 1) 0 =
      computeLRC data := by
    rw [hsub, List.getD_append_right data _ 0 data.length (Nat.le_refl _)]
    simp
  unfold parseRaw
  rw [if_neg (by omega)]
  simp only [htake, hgetD]
  rw [if_neg (by simp [verifyLRC])]

/-- A frame assembled from byte-valued `data` (at most 254 bytes, so the
frame fits the maximum length) reads back as the PDU whose unit id,
function code and payload are the fields of `data`. -/
theorem readFrame_assemble (data : List Nat) (hdata : ∀ b ∈ data, b < 256)
    (h2 : 2 ≤ data.length) (hmax : data.length ≤ 254) :
    readASCIIFrame (58 :: hexEncode (data ++ [computeLRC data]) ++ [13, 10]) =
      .ok ⟨data.getD 0 0, data.getD 1 0, data.drop 2⟩ := by
  have hbuf : ∀ b ∈ data ++ [computeLRC data], b < 256 := by
    intro b hb
    rcases List.mem_append.mp hb with hb | hb
    · exact hdata b hb
    · simp only [List.mem_singleton] at hb
      exact hb ▸ computeLRC_lt data
  have hmlen : (hexEncode (data ++ [computeLRC data])).length = 2 * (data.length + 1) := by
    rw [hexEncode_length]
    simp
  rw [readFrame_frame _ (hexEncode_no_newline _ hbuf) (by rw [hmlen]; omega)]
  rw [parse_frame]
  rw [if_neg (by rw [hmlen]; omega)]
  rw [if_neg (by rw [hmlen]; omega)]
  rw [hexDecode_hexEncode _ hbuf]
  show parseRaw (data ++ [computeLRC data]) = _
  exact parseRaw_append data h2

/-- A frame `':' mid CR LF` whose interior is newline-free and at least
512 characters long overruns the maximum frame length during scanning. -/
theorem readFrame_overflow (mid : List Nat) (h10 : 10 ∉ mid) (hlen : 512 ≤ mid.length) :
    readASCIIFrame (58 :: mid ++ [13, 10]) = .error .protocolError := by
  unfold readASCIIFrame
  have hscan : asciiScanLoop (58 :: mid ++ [13, 10]) false [] = .error .protocolError := by
    show asciiScanLoop (58 :: (mid ++ [13, 10])) false [] = _
    rw [asciiScanLoop]
    rw [if_neg (by simp)]
    simp only [maxASCIIFrameLength, List.nil_append, List.length_cons, List.length_nil]
    rw [if_neg (by omega), if_neg (by norm_num)]
    have hsplit : mid ++ [13, 10] = (mid ++ [13]) ++ [10] := by simp
    rw [hsplit]
    exact scanLoop_overflow (mid ++ [13]) [58] [10] (by simp [h10])
      (by simp)
      (by simp only [List.length_append, List.length_cons, List.length_nil]; omega)
  rw [hscan]

/-- C1 counterexample: a PDU with a 253-byte payload assembles to a
515-byte frame, which `readASCIIFrame` rejects as oversized (protocol
error) instead of round-tripping, so the round-trip property does not
hold for every PDU. -/
theorem C1_counterexample_long_payload :
    readASCIIFrame (assembleASCIIFrame ⟨1, 3, List.replicate 253 0⟩) =
        .error .protocolError ∧
      (Except.error mbErr.protocolError : Except mbErr pdu) ≠
        .ok ⟨1, 3, List.replicate 253 0⟩ := by
  constructor
  · have hdata : ∀ b ∈ (1 : Nat) :: 3 :: List.replicate 253 0, b < 256 := by
      intro b hb
      simp only [List.mem_cons] at hb
      rcases hb with rfl | rfl | hb
      · norm_num
      · norm_num
      · have := List.eq_of_mem_replicate hb
        omega
    have hbuf : ∀ b ∈ ((1 : Nat) :: 3 :: List.replicate 253 0) ++
        [computeLRC ((1 : Nat) :: 3 :: List.replicate 253 0)], b < 256 := by
      intro b hb
      rcases List.mem_append.mp hb with hb | hb
      · exact hdata b hb
      · simp only [List.mem_singleton] at hb
        exact hb ▸ computeLRC_lt _
    have hframe : assembleASCIIFrame ⟨1, 3, List.replicate 253 0⟩ =
        58 :: hexEncode (((1 : Nat) :: 3 :: List.replicate 253 0) ++
          [computeLRC ((1 : Nat) :: 3 :: List.replicate 253 0)]) ++ [13, 10] := rfl
    rw [hframe]
    refine readFrame_overflow _ (hexEncode_no_newline _ hbuf) ?_
    rw [hexEncode_length]
    simp only [List.length_append, List.length_cons, List.length_singleton,
      List.length_replicate, List.length_nil]
    omega
  · intro hc
    exact Except.noConfusion hc

/-- C1 (amended): for every byte-valued PDU whose payload holds at most
252 bytes (so that the assembled frame fits the 513-byte maximum),
feeding the byte stream produced by `assembleASCIIFrame` to
`readASCIIFrame` yields the same PDU; and the frame assembled from
unitId 0x33, functionCode 0x11, payload [0x22, 0x33] is exactly the
ASCII bytes ":3311223367\r\n". -/
theorem C1_ascii_roundtrip (p : pdu) (h : pduWF p) (hlen : p.payload.length ≤ 252) :
    readASCIIFrame (assembleASCIIFrame p) = .ok p ∧
      assembleASCIIFrame ⟨51, 17, [34, 51]⟩ =
        [58, 51, 51, 49, 49, 50, 50, 51, 51, 54, 55, 13, 10] := by
  refine ⟨?_, by decide⟩
  obtain ⟨h1, h2, h3⟩ := h
  have hdata : ∀ b ∈ p.unitId :: p.functionCode :: p.payload, b < 256 := by
    intro b hb
    simp only [List.mem_cons] at hb
    rcases hb with rfl | rfl | hb
    · exact h1
    · exact h2
    · exact h3 b hb
  have hframe : assembleASCIIFrame p =
      58 :: hexEncode ((p.unitId :: p.functionCode :: p.payload) ++
        [computeLRC (p.unitId :: p.functionCode :: p.payload)]) ++ [13, 10] := rfl
  rw [hframe]
  rw [readFrame_assemble _ hdata (by simp) (by simp only [List.length_cons]; omega)]
  rfl

/-- Witness for C1 (amended) at the concrete PDU of the spec's example. -/
theorem C1_ascii_roundtrip_witness :
    readASCIIFrame (assembleASCIIFrame ⟨51, 17, [34, 51]⟩) = .ok ⟨51, 17, [34, 51]⟩ :=
  (C1_ascii_roundtrip ⟨51, 17, [34, 51]⟩ (by decide) (by decide)).1

/-- C6: bytes before the first `':'` are discarded as line noise without
affecting the result, and once a frame has started, accumulating 513
newline-free bytes after the `':'` (plus the `':'` itself) exceeds the
maximum frame length of 513 bytes and yields a protocol error. -/
theorem C6_noise_and_overflow (noise stream body rest : List Nat)
    (hnoise : ∀ b ∈ noise, b ≠ 58) (hbody : 10 ∉ body) (hlen : 513 ≤ body.length) :
    readASCIIFrame (noise ++ stream) = readASCIIFrame stream ∧
      readASCIIFrame (58 :: body ++ rest) = .error .protocolError := by
  constructor
  · unfold readASCIIFrame
    rw [scanLoop_noise noise stream hnoise]
  · unfold readASCIIFrame
    have hscan : asciiScanLoop (58 :: body ++ rest) false [] = .error .protocolError := by
      show asciiScanLoop (58 :: (body ++ rest)) false [] = _
      rw [asciiScanLoop]
      rw [if_neg (by simp)]
      simp only [maxASCIIFrameLength, List.nil_append, List.length_cons, List.length_nil]
      rw [if_neg (by omega), if_neg (by norm_num)]
      exact scanLoop_overflow body [58] rest hbody (by simp)
        (by simp only [List.length_cons, List.length_nil]; omega)
    rw [hscan]

/-- Witness for C6 with concrete noise, a concrete frame, and a concrete
oversized body. -/
theorem C6_noise_and_overflow_witness :
    readASCIIFrame ([7] ++ [58, 51, 51, 13, 10]) = readASCIIFrame [58, 51, 51, 13, 10] ∧
      readASCIIFrame (58 :: List.replicate 513 48 ++ []) = .error .protocolError :=
  C6_noise_and_overflow [7] [58, 51, 51, 13, 10] (List.replicate 513 48) []
    (by decide)
    (fun hmem => absurd (List.eq_of_mem_replicate hmem) (by norm_num))
    (by rw [List.length_replicate])

/-- C7: `newASCIITransport` derives `t1` from the configured speed with
zero defaulted to 19200 baud, sets `t3.5` to the fixed 1750 microseconds
when the effective speed is at least 19200 baud (in particular for an
unspecified speed of zero), and to 3.5 times `t1` (computed as
`t1 * 35 / 10` on integer nanoseconds) for lower speeds. -/
theorem C7_timing_constants (sct : Nat → Nat) (speed timeout : Nat) :
    (newASCIITransport sct speed timeout).t1 = sct (if speed = 0 then 19200 else speed) ∧
      (newASCIITransport sct 0 timeout).t35 = 1750000 ∧
      (19200 ≤ speed → (newASCIITransport sct speed timeout).t35 = 1750000) ∧
      (speed ≠ 0 → speed < 19200 →
        (newASCIITransport sct speed timeout).t35 =
          (newASCIITransport sct speed timeout).t1 * 35 / 10) := by
  refine ⟨rfl, rfl, ?_, ?_⟩
  · intro h
    have hz : speed ≠ 0 := by omega
    show (if 19200 ≤ (if speed = 0 then 19200 else speed) then 1750000
        else sct (if speed = 0 then 19200 else speed) * 35 / 10) = 1750000
    rw [if_neg hz, if_pos h]
  · intro hz hlt
    have hnle : ¬ 19200 ≤ speed := by omega
    show (if 19200 ≤ (if speed = 0 then 19200 else speed) then 1750000
        else sct (if speed = 0 then 19200 else speed) * 35 / 10) =
      sct (if speed = 0 then 19200 else speed) * 35 / 10
    rw [if_neg hz, if_neg hnle]

/-- Witness for C7 at concrete speeds 9600, 0 and 38400. -/
theorem C7_timing_constants_witness :
    (newASCIITransport (fun s => 10000000000 / s) 9600 0).t35 =
        (newASCIITransport (fun s => 10000000000 / s) 9600 0).t1 * 35 / 10 ∧
      (newASCIITransport (fun s => 10000000000 / s) 0 0).t35 = 1750000 ∧
      (newASCIITransport (fun s => 10000000000 / s) 38400 0).t35 = 1750000 :=
  ⟨(C7_timing_constants (fun s => 10000000000 / s) 9600 0).2.2.2 (by decide) (by decide),
   (C7_timing_constants (fun s => 10000000000 / s) 0 0).2.1,
   (C7_timing_constants (fun s => 10000000000 / s) 38400 0).2.2.1 (by decide)⟩

/-- C10: for a byte-valued PDU, the assembled ASCII frame has length
exactly `2 * payload length + 9`, is `':'` followed by the hex encoding
of unitId, functionCode, payload and LRC in order, then CR LF, and every
interior byte is an upper-case hexadecimal digit character. -/
theorem C10_frame_shape (p : pdu) (h : pduWF p) :
    (assembleASCIIFrame p).length = 2 * p.payload.length + 9 ∧
      assembleASCIIFrame p =
        58 :: hexEncode ((p.unitId :: p.functionCode :: p.payload) ++
          [computeLRC (p.unitId :: p.functionCode :: p.payload)]) ++ [13, 10] ∧
      ∀ c ∈ hexEncode ((p.unitId :: p.functionCode :: p.payload) ++
          [computeLRC (p.unitId :: p.functionCode :: p.payload)]),
        isUpperHexDigit c = true := by
  obtain ⟨h1, h2, h3⟩ := h
  have hbuf : ∀ b ∈ (p.unitId :: p.functionCode :: p.payload) ++
      [computeLRC (p.unitId :: p.functionCode :: p.payload)], b < 256 := by
    intro b hb
    rcases List.mem_append.mp hb with hb | hb
    · simp only [List.mem_cons] at hb
      rcases hb with rfl | rfl | hb
      · exact h1
      · exact h2
      · exact h3 b hb
    · simp only [List.mem_singleton] at hb
      exact hb ▸ computeLRC_lt _
  refine ⟨?_, rfl, hexEncode_chars _ hbuf⟩
  show (58 :: hexEncode ((p.unitId :: p.functionCode :: p.payload) ++
      [computeLRC (p.unitId :: p.functionCode :: p.payload)]) ++ [13, 10]).length = _
  simp only [List.length_cons, List.length_append, hexEncode_length, List.length_singleton,
    List.length_nil]
  omega

/-- Witness for C10 at a concrete PDU. -/
theorem C10_frame_shape_witness :
    (assembleASCIIFrame ⟨49, 3, [4, 17]⟩).length = 2 * ([4, 17] : List Nat).length + 9 :=
  (C10_frame_shape ⟨49, 3, [4, 17]⟩ (by decide)).1

/-- C8 counterexample: when the link write itself fails, `ExecuteRequest`
returns a non-timeout error yet leaves `lastActivity` at its old value
(here 0) instead of setting it to the current time (here 100): the
early-return paths skip the final last-activity update. -/
theorem C8_counterexample_write_error :
    (executeRequestModel ⟨0, 0, 5, 2⟩ ⟨true, none, .ok ⟨1, 2, []⟩, 7, 8, 100⟩).res =
        .error .linkError ∧
      mbErr.linkError ≠ mbErr.requestTimedOut ∧
      (executeRequestModel ⟨0, 0, 5, 2⟩ ⟨true, none, .ok ⟨1, 2, []⟩, 7, 8, 100⟩).lastActivity =
        0 ∧
      (0 : Nat) ≠ 100 :=
  ⟨by decide, by decide, by decide, by decide⟩

/-- C8 (amended): once `ExecuteRequest` has armed the deadline, written
the frame and reached the response read, a timed-out read leaves
`lastActivity` at the post-write estimate (write instant plus bytes
written times `t1`), and every other read outcome (success or a
non-timeout error) sets `lastActivity` to the current time; the
early-return paths (failed deadline arming or failed write) leave
`lastActivity` unchanged instead. -/
theorem C8_lastActivity_update (st : asciiTransport) (o : execOracle) (n : Nat)
    (hd : o.deadlineOk = true) (hw : o.writeRes = some n) :
    (o.readRes = .error .requestTimedOut →
      (executeRequestModel st o).lastActivity =
        max o.startNow (st.lastActivity + st.t35) + n * st.t1) ∧
    (o.readRes ≠ .error .requestTimedOut →
      (executeRequestModel st o).lastActivity = o.endNow) := by
  constructor
  · intro hto
    simp only [executeRequestModel, hd, hw, hto]
    simp
  · intro hnto
    cases hr : o.readRes with
    | ok p =>
      simp only [executeRequestModel, hd, hw, hr]
      simp
    | error e =>
      have he : e ≠ .requestTimedOut := by
        intro hc
        exact hnto (by rw [hr, hc])
      simp only [executeRequestModel, hd, hw, hr]
      simp [he]

/-- Witness for C8 (amended): a concrete timed-out read keeps the
post-write estimate, a concrete successful read moves `lastActivity` to
the final clock value. -/
theorem C8_lastActivity_update_witness :
    (executeRequestModel ⟨0, 0, 5, 2⟩
        ⟨true, some 3, .error .requestTimedOut, 7, 8, 100⟩).lastActivity =
        max 7 (0 + 5) + 3 * 2 ∧
      (executeRequestModel ⟨0, 0, 5, 2⟩
        ⟨true, some 3, .ok ⟨1, 2, []⟩, 7, 8, 100⟩).lastActivity = 100 :=
  ⟨(C8_lastActivity_update ⟨0, 0, 5, 2⟩
      ⟨true, some 3, .error .requestTimedOut, 7, 8, 100⟩ 3 rfl rfl).1 rfl,
   (C8_lastActivity_update ⟨0, 0, 5, 2⟩
      ⟨true, some 3, .ok ⟨1, 2, []⟩, 7, 8, 100⟩ 3 rfl rfl).2 (by decide)⟩

/-- C9: whenever `ExecuteRequest` reaches the frame write, the write
instant is at least `t3.5` after the last observed activity, and
whenever it reaches the response read, the read instant is at least
`t3.5` after the post-write activity estimate (write instant plus bytes
written times `t1`). -/
theorem C9_interframe_silence (st : asciiTransport) (o : execOracle) (ts rt : Nat)
    (hts : (executeRequestModel st o).writeTime = some ts)
    (hrt : (executeRequestModel st o).readTime = some rt) :
    st.lastActivity + st.t35 ≤ ts ∧
      ∃ n, o.writeRes = some n ∧ ts + n * st.t1 + st.t35 ≤ rt := by
  cases hd : o.deadlineOk with
  | false =>
    simp only [executeRequestModel, hd] at hts
    simp at hts
  | true =>
    cases hw : o.writeRes with
    | none =>
      simp only [executeRequestModel, hd, hw] at hrt
      simp at hrt
    | some n =>
      cases hr : o.readRes with
      | ok p =>
        simp [executeRequestModel, hd, hw, hr] at hts hrt
        exact ⟨by omega, n, rfl, by omega⟩
      | error e =>
        by_cases he : e = .requestTimedOut
        · simp [executeRequestModel, hd, hw, hr, he] at hts hrt
          exact ⟨by omega, n, rfl, by omega⟩
        · simp [executeRequestModel, hd, hw, hr, he] at hts hrt
          exact ⟨by omega, n, rfl, by omega⟩

/-- Witness for C9 at a concrete transport state and oracle. -/
theorem C9_interframe_silence_witness :
    (0 : Nat) + 5 ≤ 7 ∧
      ∃ n, (⟨true, some 3, .ok ⟨1, 2, []⟩, 7, 8, 100⟩ : execOracle).writeRes = some n ∧
        7 + n * 2 + 5 ≤ 18 :=
  C9_interframe_silence ⟨0, 0, 5, 2⟩ ⟨true, some 3, .ok ⟨1, 2, []⟩, 7, 8, 100⟩ 7 18
    (by decide) (by decide)
